import Mathlib

/-!
Verification development for the `mold-net` crawler (`src/crawler/crawler.go`).

The Go source is shallowly embedded below.  Pure helper functions become Lean
functions over `String` / `List Char`; the stateful precrawl loop becomes a
fuel-indexed function over an explicit state record; external collaborators
(the HTTP transport, the JSON decoder, the DOM query engine) are modelled as
explicit inputs.  Go byte lengths are modelled with `String.utf8ByteSize`,
Go `int` with `Int`.
-/

set_option maxRecDepth 100000

namespace MoldNet

/-! ## Embedded definitions -/

/-- Model of Go `unicode.IsSpace` restricted to ASCII whitespace (the
whitespace URL strings actually carry). -/
def isSpaceChar (c : Char) : Bool :=
  c = ' ' ∨ c = '\t' ∨ c = '\n' ∨ c = '\r'

/-- Model of Go `strings.TrimSpace` on a character list: drop whitespace from
both ends. -/
def goTrim (l : List Char) : List Char :=
  ((l.dropWhile isSpaceChar).reverse.dropWhile isSpaceChar).reverse

/-- The character-list body of `getLink` (crawler.go 62-73): if the target
contains `#`, keep only the part before the first `#` (Go
`strings.Split(target, "#")[0]`); likewise for `?`; then `TrimSpace`; then
`strings.TrimSuffix(target, "/")`, which strips exactly one trailing slash. -/
def getLinkL (l : List Char) : List Char :=
  let t1 := if l.contains '#' then l.takeWhile (fun x => x != '#') else l
  let t2 := if t1.contains '?' then t1.takeWhile (fun x => x != '?') else t1
  let t3 := goTrim t2
  if t3.getLast? = some '/' then t3.dropLast else t3

/-- Embedding of `getLink` (crawler.go 62-73), the link normalizer. -/
def getLink (target : String) : String :=
  String.mk (getLinkL target.toList)

/-- Model of the result of Go `net/url.Parse` restricted to the fields the
crawler reads: scheme, host (possibly with port) and path. -/
structure GoURL where
  scheme : String
  host : String
  path : String
deriving DecidableEq

/-- Model of Go `(*url.URL).Hostname()`: the host with any `:port` removed. -/
def GoURL.hostname (u : GoURL) : String :=
  String.mk (u.host.toList.takeWhile (fun c => c != ':'))

/-- Locate the first `://` in a character list, returning the text before and
after it. -/
def findSchemeSplit : List Char → Option (List Char × List Char)
  | [] => none
  | c :: rest =>
    if (c :: rest).take 3 = [':', '/', '/'] then some ([], rest.drop 2)
    else
      match findSchemeSplit rest with
      | some (pre, post) => some (c :: pre, post)
      | none => none

/-- Model of Go `net/url.Parse` (a standard-library collaborator): reject
strings holding ASCII control characters (Go returns an error for those);
split `scheme://host/path`; a string with no `://` parses with empty scheme
and host and the whole string as path. -/
def parseURL (s : String) : Option GoURL :=
  if s.toList.any (fun c => c.toNat < 32) then none
  else
    match findSchemeSplit s.toList with
    | none => some ⟨"", "", s⟩
    | some (scheme, rest) =>
        some ⟨String.mk scheme, String.mk (rest.takeWhile (fun c => c != '/')),
          String.mk (rest.dropWhile (fun c => c != '/'))⟩

/-- Embedding of `getDomains` (crawler.go 101-118): walk the seed links; for
each parseable link record its hostname, and record the link itself as a
pathsite when `len(u.Path) > 0 && (u.Path != "/" || u.Path != "index.html")`.
The recursion preserves the source's append order. -/
def getDomains : List String → List String × List String
  | [] => ([], [])
  | l :: rest =>
    match parseURL l with
    | none => getDomains rest
    | some u =>
        let tail := getDomains rest
        (u.hostname :: tail.1,
          if u.path.length > 0 ∧ (u.path ≠ "/" ∨ u.path ≠ "index.html") then
            l :: tail.2
          else
            tail.2)

/-- Spec-side PathSite predicate, written from the claim's words: the parsed
path component is non-empty and not exactly `/`. -/
def isPathSiteSpec (l : String) : Bool :=
  match parseURL l with
  | none => false
  | some u => u.path ≠ "" ∧ u.path ≠ "/"

/-- Code-side PathSite predicate: what the `getDomains` condition actually
tests for one link. -/
def isPathSiteCode (l : String) : Bool :=
  match parseURL l with
  | none => false
  | some u => u.path ≠ ""

/-- Embedding of `find` (crawler.go 53-60): linear scan for an exact match. -/
def find (list : List String) (query : String) : Bool :=
  list.any (fun item => item == query)

/-- Model of Go `strings.Contains`: `sub` occurs as a contiguous substring of
`s`. -/
def strContains (s sub : String) : Bool :=
  (List.range (s.toList.length + 1)).any
    (fun i => sub.toList.isPrefixOf (s.toList.drop i))

/-- Embedding of `findSuffix` (crawler.go 120-127): does the lowercased query
end with one of the suffixes. -/
def findSuffix (suffixes : List String) (query : String) : Bool :=
  suffixes.any (fun suffix => query.toLower.endsWith suffix)

/-- Modelled from the spec: `util.Contains` (package `lieu/util`, not under
`src/`), an exact string-membership test used for the boring-word,
boring-domain and about-heuristic lists (spec 4.5: "by exact string match"). -/
def goContains (list : List String) (query : String) : Bool :=
  list.contains query

/-- Embedding of the pathsite-selection loop (crawler.go 392-398): the first
pathsite whose URL contains the outgoing domain as a substring, else the empty
string (`var pathsite string` zero value). -/
def selectPathsite (pathsites : List String) (outgoingDomain : String) : String :=
  match pathsites.find? (fun s => strContains s outgoingDomain) with
  | some s => s
  | none => ""

/-- Model of Go `strings.HasPrefix`. -/
def goHasPrefix (s pre : String) : Bool :=
  pre.toList.isPrefixOf s.toList

/-- Embedding of the enqueue decision (crawler.go 401-409): when a pathsite was
selected, enqueue only links that start with the pathsite URL; otherwise
enqueue unconditionally. -/
def enqueues (pathsites : List String) (link outgoingDomain : String) : Bool :=
  let pathsite := selectPathsite pathsites outgoingDomain
  if pathsite ≠ "" then goHasPrefix link pathsite else true

/-- One structured output line: kind tag, payload, source URL, depth. -/
structure EmitRecord where
  kind : String
  payload : String
  url : String
  depth : Int
deriving DecidableEq

/-- Embedding of the logging block (crawler.go 382-389): for a non-boring link,
emit `non-webring-link` when the outgoing domain is not a ring domain, else
emit `webring-link` when the outgoing domain differs from the current and
initial domains and the current domain differs from the initial domain.
`initialDomain` is `config.General.URL` (crawler.go 320). -/
def logClassification (boringWords boringDomains domains : List String)
    (link outgoingDomain currentDomain initialDomain pageURL : String)
    (depth : Int) : List EmitRecord :=
  if ¬ goContains boringWords link ∧ ¬ goContains boringDomains link then
    if ¬ find domains outgoingDomain then
      [⟨"non-webring-link", link, pageURL, depth⟩]
    else if outgoingDomain ≠ currentDomain ∧ outgoingDomain ≠ initialDomain ∧
        currentDomain ≠ initialDomain then
      [⟨"webring-link", link, pageURL, depth⟩]
    else
      []
  else
    []

/-- Model of one Go map assignment `m[k] = v`: replace an existing binding or
append a new one. -/
def mapInsert (m : List (String × Int)) (k : String) (v : Int) :
    List (String × Int) :=
  if m.any (fun p => p.1 == k) then
    m.map (fun p => if p.1 == k then (k, v) else p)
  else
    m ++ [(k, v)]

/-- Model of the Go map read `linkDepths[url]`: missing keys give the zero
value 0. -/
def lookupDepth (m : List (String × Int)) (url : String) : Int :=
  match m.find? (fun p => p.1 == url) with
  | some p => p.2
  | none => 0

/-- Embedding of the seed loop (crawler.go 338-341): the side map is populated
once with each seed link and its configured depth. -/
def buildLinkDepths (links : List String) (depths : List Int) :
    List (String × Int) :=
  (links.zip depths).foldl (fun m p => mapInsert m p.1 p.2) []

/-- Model of the Unicode separator class `\p{Z}` restricted to the blanks the
crawled text carries. -/
def isZChar (c : Char) : Bool :=
  c = ' ' ∨ c = ' '

/-- Collapse every run of separator characters to a single space; the Bool
carries whether the previous character was a separator. -/
def collapseZAux : List Char → Bool → List Char
  | [], _ => []
  | c :: rest, prevZ =>
    if isZChar c then
      if prevZ then collapseZAux rest true else ' ' :: collapseZAux rest true
    else
      c :: collapseZAux rest false

/-- Embedding of `cleanText` (crawler.go 129-135): trim surrounding space,
replace newlines by spaces, collapse `\p{Z}+` runs to one space. -/
def cleanText (s : String) : String :=
  String.mk (collapseZAux
    ((goTrim s.toList).map (fun c => if c = '\n' then ' ' else c)) false)

/-- Go `len` on a string counts UTF-8 bytes. -/
def goLen (s : String) : Nat := s.utf8ByteSize

/-- A fetched page as the colly collaborator presents it to the handlers:
response status, request URL, the attribute values of each handler's matched
elements, and a CSS-query collaborator for the body handler. -/
structure Page where
  statusCode : Int
  url : String
  keywordsMeta : List String
  descMeta : List String
  ogDescMeta : List String
  langAttrs : List String
  titles : List String
  dom : String → List String

/-- Embedding of the `meta[keywords]` handler (crawler.go 138-140). -/
def keywordsHandler (m : List (String × Int)) (p : Page) : List EmitRecord :=
  p.keywordsMeta.map (fun content =>
    ⟨"keywords", cleanText content, p.url, lookupDepth m p.url⟩)

/-- Embedding of the `meta[description]` handler (crawler.go 142-147). -/
def descHandler (m : List (String × Int)) (p : Page) : List EmitRecord :=
  p.descMeta.filterMap (fun content =>
    let desc := cleanText content
    if 0 < goLen desc ∧ goLen desc < 1500 then
      some ⟨"desc", desc, p.url, lookupDepth m p.url⟩
    else
      none)

/-- Embedding of the `og:description` handler (crawler.go 149-154). -/
def ogDescHandler (m : List (String × Int)) (p : Page) : List EmitRecord :=
  p.ogDescMeta.filterMap (fun content =>
    let ogDesc := cleanText content
    if 0 < goLen ogDesc ∧ goLen ogDesc < 1500 then
      some ⟨"og-desc", ogDesc, p.url, lookupDepth m p.url⟩
    else
      none)

/-- Embedding of the `html[lang]` handler (crawler.go 156-161). -/
def langHandler (m : List (String × Int)) (p : Page) : List EmitRecord :=
  p.langAttrs.filterMap (fun attr =>
    let lang := cleanText attr
    if 0 < goLen lang ∧ goLen lang < 100 then
      some ⟨"lang", lang, p.url, lookupDepth m p.url⟩
    else
      none)

/-- Embedding of the `title` handler (crawler.go 164-166). -/
def titleHandler (m : List (String × Int)) (p : Page) : List EmitRecord :=
  p.titles.map (fun t => ⟨"title", cleanText t, p.url, lookupDepth m p.url⟩)

/-- Embedding of the inner preview loop (crawler.go 170-183) for one selector
query: among the first four matched elements, the first cleaned paragraph
between 20 and 1500 bytes that is not an about-page boilerplate line. -/
def previewFromQuery (heuristics : List String) (texts : List String) :
    Option String :=
  ((texts.take 4).map cleanText).find? (fun paragraph =>
    (decide (goLen paragraph < 1500) && decide (goLen paragraph > 20)) &&
      !(goContains heuristics paragraph.toLower))

/-- Embedding of `collectHeadingText` (crawler.go 196-202). -/
def collectHeadingText (heading : String) (m : List (String × Int)) (p : Page) :
    List EmitRecord :=
  (p.dom heading).filterMap (fun headingText =>
    if goLen headingText < 500 then
      some ⟨heading, cleanText headingText, p.url, lookupDepth m p.url⟩
    else
      none)

/-- Embedding of the `body` handler (crawler.go 168-193): first matching
preview paragraph across the configured queries, the first-`<p>` fallback, and
the h1-h3 headings. -/
def bodyHandler (previewQueries heuristics : List String)
    (m : List (String × Int)) (p : Page) : List EmitRecord :=
  let para :=
    match previewQueries.findSome?
        (fun q => previewFromQuery heuristics (p.dom q)) with
    | some paragraph => [⟨"para", paragraph, p.url, lookupDepth m p.url⟩]
    | none => []
  let firstP := cleanText ((p.dom "p").headD "")
  let paraJustP :=
    if goLen firstP < 1500 ∧ 0 < goLen firstP then
      [⟨"para-just-p", firstP, p.url, lookupDepth m p.url⟩]
    else
      []
  para ++ paraJustP ++ collectHeadingText "h1" m p ++
    collectHeadingText "h2" m p ++ collectHeadingText "h3" m p

/-- Embedding of `handleIndexing` (crawler.go 137-194): the records all the
extraction handlers emit for one fetched page. -/
def handleIndexing (previewQueries heuristics : List String)
    (m : List (String × Int)) (p : Page) : List EmitRecord :=
  keywordsHandler m p ++ descHandler m p ++ ogDescHandler m p ++
    langHandler m p ++ titleHandler m p ++
    bodyHandler previewQueries heuristics m p

/-- The inputs the colly collaborator hands the `a[href]` callback: response
status, the raw `href`, the request URL string and its hostname. -/
structure LinkCtx where
  status : Int
  href : String
  pageURL : String
  currentDomain : String

/-- Embedding of the `a[href]` callback (crawler.go 361-410): status gate,
normalization, banned-suffix gate, absolutization (a colly collaborator),
parse, classification logging, and the pathsite-restricted enqueue. Returns
the emitted records and the enqueued URLs. -/
def linkHandler (SUFFIXES boringWords boringDomains domains pathsites :
      List String) (initialDomain : String) (linkDepths : List (String × Int))
    (absoluteURL : String → String) (ctx : LinkCtx) :
    List EmitRecord × List String :=
  if ctx.status ≥ 400 ∨ ctx.status ≤ 100 then ([], [])
  else
    let link0 := getLink ctx.href
    if findSuffix SUFFIXES link0 then ([], [])
    else
      let link := absoluteURL link0
      match parseURL link with
      | none => ([], [])
      | some u =>
          let outgoingDomain := u.hostname
          (logClassification boringWords boringDomains domains link
              outgoingDomain ctx.currentDomain initialDomain ctx.pageURL
              (lookupDepth linkDepths ctx.pageURL),
            if enqueues pathsites link outgoingDomain then [link] else [])

/-- A concrete error page used as witness input: status 404 with a title. -/
def pg404 : Page :=
  ⟨404, "https://m.example/t", [], [], [], [], ["T"], fun _ => []⟩

/-- A concrete error-page link context used as witness input. -/
def ctx404 : LinkCtx :=
  ⟨404, "https://m.example/x", "https://m.example/t", "m.example"⟩

/-- Modelled from the spec: `types.Hypha` (package `lieu/types` is not under
`src/`): a node of one site's self-described link graph, identified by URL
and depth (spec 3). -/
structure Hypha where
  url : String
  depth : Int
deriving DecidableEq

/-- Modelled from the spec: `types.Site` (package `lieu/types` is not under
`src/`): a discovered site, identified by URL and depth (spec 3). -/
structure Site where
  url : String
  depth : Int
deriving DecidableEq

/-- Modelled from the spec: `types.Cluster` (package `lieu/types` is not under
`src/`), the decoded discovery payload: location, hyphae, spores (spec 3). -/
structure Cluster where
  location : String
  hyphae : List String
  spores : List String
deriving DecidableEq

/-- One fetch outcome as `Precrawl` sees it: a transport or read error (both
hit `log.Fatal`), or a status together with the decoded body; `none` models a
JSON decode failure, whose error `json.Unmarshal`'s caller ignores
(crawler.go 253), leaving the zero-value Cluster. -/
inductive FetchResult where
  | transportError
  | response (status : Int) (body : Option Cluster)

/-- The zero value of `types.Cluster`: what an ignored failed decode leaves in
`var cluster types.Cluster`. -/
def zeroCluster : Cluster := ⟨"", [], []⟩

/-- Model of `mapset.Set.Add` (a collaborator): append when not yet present. -/
def setAdd {α : Type} [DecidableEq α] (l : List α) (x : α) : List α :=
  if x ∈ l then l else l ++ [x]

/-- The loop state of `Precrawl` (crawler.go 238-243) plus the response in
hand: depth counter, the three sets, and the last response's status and
decoded body. -/
structure PState where
  depthCounter : Int
  checked : List Hypha
  allHyphae : List Hypha
  allSites : List Site
  resStatus : Int
  resBody : Option Cluster
deriving DecidableEq

/-- Embedding of one body-processing step (crawler.go 246-266): decode (zero
value on failure), stamp the cluster with `depthCounter`, mark its location
checked, add each hypha at `depth+1` and each spore at `depth`. -/
def processCluster (st : PState) : PState :=
  let cl := st.resBody.getD zeroCluster
  { st with
    checked := setAdd st.checked ⟨cl.location, st.depthCounter⟩,
    allHyphae := cl.hyphae.foldl
      (fun acc v => setAdd acc ⟨v, st.depthCounter + 1⟩) st.allHyphae,
    allSites := cl.spores.foldl
      (fun acc v => setAdd acc ⟨v, st.depthCounter⟩) st.allSites }

/-- Embedding of `allHyphae.Difference(checked)` (crawler.go 268). -/
def diffU (st : PState) : List Hypha :=
  st.allHyphae.filter (fun h => decide (h ∉ st.checked))

/-- Embedding of the final emission loop (crawler.go 294-308): for each
discovered Site, normalize its URL, skip it when it does not parse or its
hostname is banned, otherwise print `(link, depth)`. -/
def emitSites (banned : List String) : List Site → List (String × Int)
  | [] => []
  | s :: rest =>
    let link := getLink s.url
    match parseURL link with
    | none => emitSites banned rest
    | some u =>
        if find banned u.hostname then emitSites banned rest
        else (link, s.depth) :: emitSites banned rest

/-- The keep-condition of the emission loop, as a predicate on one Site. -/
def emitKeep (banned : List String) (s : Site) : Bool :=
  match parseURL (getLink s.url) with
  | none => false
  | some u => !(find banned u.hostname)

/-- The output line the emission loop prints for one kept Site. -/
def siteLine (s : Site) : String × Int := (getLink s.url, s.depth)

/-- The observable outcome of a discovery run: `log.Fatal`, or the emitted
`(link, depth)` lines. -/
inductive PrecrawlResult where
  | fatal
  | emitted (lines : List (String × Int))
deriving DecidableEq

/-- Embedding of the `for !precrawled` loop (crawler.go 245-292), fuel-indexed
(`none` = fuel exhausted, the loop is still running): process the response in
hand; if `allHyphae − checked` is empty, stop — `log.Fatal` unless the final
status is 200, else emit the site list; otherwise pop an unchecked Hypha,
run its fetch (`log.Fatal` on transport error) and continue. -/
def precrawlLoop (graph : String → FetchResult) (banned : List String) :
    Nat → PState → Option PrecrawlResult
  | 0, _ => none
  | Nat.succ fuel, st =>
    let st1 := processCluster st
    match diffU st1 with
    | [] =>
        if st1.resStatus ≠ 200 then some PrecrawlResult.fatal
        else some (PrecrawlResult.emitted (emitSites banned st1.allSites))
    | d :: _ =>
        match graph d.url with
        | FetchResult.transportError => some PrecrawlResult.fatal
        | FetchResult.response s b =>
            precrawlLoop graph banned fuel
              { st1 with depthCounter := d.depth, resStatus := s, resBody := b }

/-- Embedding of `Precrawl` (crawler.go 224-309): fetch the seed (`log.Fatal`
on transport error) and run the discovery loop. -/
def precrawl (graph : String → FetchResult) (banned : List String)
    (seed : String) (fuel : Nat) : Option PrecrawlResult :=
  match graph seed with
  | FetchResult.transportError => some PrecrawlResult.fatal
  | FetchResult.response s b =>
      precrawlLoop graph banned fuel ⟨0, [], [], [], s, b⟩

/-- The claim's cycle-tolerance premise: every fetched URL answers with a
decodable Cluster whose location equals the fetched URL. -/
def cycleTolerant (graph : String → FetchResult) : Prop :=
  ∀ u : String, ∃ status : Int, ∃ cl : Cluster,
    graph u = FetchResult.response status (some cl) ∧ cl.location = u

/-- A cycle-tolerant graph in which every page references only itself: the
smallest finite graph with a cycle. -/
def selfGraph : String → FetchResult :=
  fun u => FetchResult.response 200 (some ⟨u, [u], []⟩)

/-- The Hypha `(a, i)` reached at step `i` of the self-loop run. -/
def hyA (i : Nat) : Hypha := ⟨"a", (i : Int)⟩

/-- The state entering the `n`-th iteration of the self-loop run. -/
def stN (n : Nat) : PState :=
  ⟨(n : Int), (List.range n).map hyA, (List.range n).map (fun i => hyA (i + 1)),
    [], 200, some ⟨"a", ["a"], []⟩⟩

/-- An echo graph: every URL answers an empty self-describing cluster. -/
def echoGraph : String → FetchResult :=
  fun u => FetchResult.response 200 (some ⟨u, [], []⟩)

/-- A graph whose every body fails to decode (status stays 200). -/
def garbageGraph : String → FetchResult :=
  fun _ => FetchResult.response 200 none

/-- A graph whose every fetch fails at the transport level. -/
def fatalGraph : String → FetchResult :=
  fun _ => FetchResult.transportError

/-- The two-document discovery graph of the spec's correctness example. -/
def c3graph : String → FetchResult := fun u =>
  if u = "https://a" then
    FetchResult.response 200 (some ⟨"https://a", ["https://a/2"], ["https://b"]⟩)
  else if u = "https://a/2" then
    FetchResult.response 200 (some ⟨"https://a/2", [], ["https://c"]⟩)
  else
    FetchResult.transportError

/-- A concrete mid-run state: the seed cluster of the two-document example has
just been fetched. -/
def cStA : PState :=
  ⟨0, [], [], [], 200, some ⟨"https://a", ["https://a/2"], []⟩⟩

/-- A concrete state whose processing leaves one unchecked Hypha. -/
def cStOpen : PState :=
  ⟨0, [], [], [], 200, some ⟨"a", ["h"], []⟩⟩

/-- A concrete state whose processing leaves no unchecked Hypha but whose last
response status is 500. -/
def cStDone : PState :=
  ⟨0, [], [], [], 500, some ⟨"x", [], []⟩⟩

/-- The self-loop discovery run never finishes: however much fuel the loop is
given, it is still running (the run with concrete graph `selfGraph`, no banned
domains and seed `a` answers `none` for every fuel value). -/
def selfLoopRunsForever : Prop :=
  ∀ fuel : Nat, precrawl selfGraph [] "a" fuel = none

/-! ## Theorems -/

theorem cut_eq (l : List Char) (c : Char) :
    (if l.contains c then l.takeWhile (fun x => x != c) else l)
      = l.takeWhile (fun x => x != c) := by
  split
  · rfl
  · next h =>
    symm
    apply List.takeWhile_eq_self_iff.mpr
    intro x hx
    simp only [bne_iff_ne, ne_eq]
    intro hxc
    subst hxc
    exact h (by simpa using hx)

theorem getLinkL_eq (l : List Char) :
    getLinkL l =
      (if (goTrim ((l.takeWhile (fun x => x != '#')).takeWhile
            (fun x => x != '?'))).getLast? = some '/' then
        (goTrim ((l.takeWhile (fun x => x != '#')).takeWhile
            (fun x => x != '?'))).dropLast
      else
        goTrim ((l.takeWhile (fun x => x != '#')).takeWhile (fun x => x != '?'))) := by
  unfold getLinkL
  simp only [cut_eq]

theorem goTrim_subset (l : List Char) : goTrim l ⊆ l := by
  intro x hx
  unfold goTrim at hx
  simp only [List.mem_reverse] at hx
  have hx2 := (List.dropWhile_sublist isSpaceChar).subset hx
  simp only [List.mem_reverse] at hx2
  exact (List.dropWhile_sublist isSpaceChar).subset hx2

theorem getLinkL_subset (l : List Char) :
    getLinkL l ⊆ (l.takeWhile (fun x => x != '#')).takeWhile (fun x => x != '?') := by
  rw [getLinkL_eq]
  intro x hx
  split at hx
  · exact goTrim_subset _ (List.dropLast_subset _ hx)
  · exact goTrim_subset _ hx

/-- The normalized link contains no `#`. -/
theorem getLinkL_no_hash (l : List Char) : '#' ∉ getLinkL l := by
  intro hx
  have h1 := getLinkL_subset l hx
  have h2 := (List.takeWhile_sublist (fun x => x != '?')).subset h1
  have h3 := List.mem_takeWhile_imp h2
  simp at h3

/-- The normalized link contains no `?`. -/
theorem getLinkL_no_query (l : List Char) : '?' ∉ getLinkL l := by
  intro hx
  have h1 := List.mem_takeWhile_imp (getLinkL_subset l hx)
  simp at h1

theorem getLinkL_idem (l : List Char)
    (h1 : goTrim (getLinkL l) = getLinkL l)
    (h2 : (getLinkL l).getLast? ≠ some '/') :
    getLinkL (getLinkL l) = getLinkL l := by
  have hh : (getLinkL l).contains '#' = false := by
    simpa using getLinkL_no_hash l
  have hq : (getLinkL l).contains '?' = false := by
    simpa using getLinkL_no_query l
  generalize hv : getLinkL l = v at *
  unfold getLinkL
  simp only [hh, hq, Bool.false_eq_true, if_false, h1, h2, ite_false]

/-- C7, counterexample: the normalizer is not idempotent on a URL ending in
`//`, because `TrimSuffix` strips exactly one trailing slash. -/
theorem C7_counterexample :
    getLink (getLink "https://x.com/a//") ≠ getLink "https://x.com/a//" := by
  decide

/-- C7 (corrected): `normalize(normalize(u)) = normalize(u)` holds whenever the
first normalization's output is whitespace-trimmed and does not end in `/`;
the unconditional claim fails (see the counterexample) because exactly one
trailing slash is stripped. -/
theorem C7_theorem (u : String)
    (h1 : goTrim (getLink u).toList = (getLink u).toList)
    (h2 : (getLink u).toList.getLast? ≠ some '/') :
    getLink (getLink u) = getLink u := by
  unfold getLink
  exact congrArg String.mk (getLinkL_idem u.toList h1 h2)

/-- C7, witness: the amended idempotence theorem applies to a clean URL. -/
theorem C7_witness :
    getLink (getLink "https://x.com/a") = getLink "https://x.com/a" :=
  C7_theorem "https://x.com/a" (by decide) (by decide)

/-- C4, counterexample: a seed whose parsed path is exactly `/` IS classified
as a PathSite by `getDomains`, because `u.Path != "/" || u.Path != "index.html"`
is always true; the claim says it must not be one. -/
theorem C4_counterexample :
    parseURL "https://example.com/" = some ⟨"https", "example.com", "/"⟩ ∧
      (getDomains ["https://example.com/"]).2 = ["https://example.com/"] ∧
      isPathSiteSpec "https://example.com/" = false := by
  refine ⟨by decide, by decide, by decide⟩

theorem string_eq_empty_of_length (s : String) (h : s.length = 0) : s = "" := by
  cases s with
  | mk data =>
    cases data with
    | nil => rfl
    | cons c cs => simp [String.length] at h

/-- Membership description of the pathsites produced by `getDomains`. -/
theorem mem_getDomains_snd (links : List String) (l : String) :
    l ∈ (getDomains links).2 ↔ (l ∈ links ∧ isPathSiteCode l = true) := by
  induction links with
  | nil => simp [getDomains]
  | cons x rest ih =>
    cases hp : parseURL x with
    | none =>
      have hg : (getDomains (x :: rest)).2 = (getDomains rest).2 := by
        simp only [getDomains, hp]
      rw [hg, ih]
      constructor
      · rintro ⟨h1, h2⟩
        exact ⟨List.mem_cons_of_mem _ h1, h2⟩
      · rintro ⟨h1, h2⟩
        rcases List.mem_cons.mp h1 with h | h
        · subst h
          simp [isPathSiteCode, hp] at h2
        · exact ⟨h, h2⟩
    | some u =>
      by_cases hcond : (u.path.length > 0 ∧ (u.path ≠ "/" ∨ u.path ≠ "index.html"))
      · have hg : (getDomains (x :: rest)).2 = x :: (getDomains rest).2 := by
          simp only [getDomains, hp]
          rw [if_pos hcond]
        rw [hg]
        simp only [List.mem_cons, ih]
        constructor
        · rintro (h | ⟨h1, h2⟩)
          · subst h
            refine ⟨Or.inl rfl, ?_⟩
            simp only [isPathSiteCode, hp, decide_eq_true_eq]
            intro hne
            rw [hne] at hcond
            simp at hcond
          · exact ⟨Or.inr h1, h2⟩
        · rintro ⟨h1, h2⟩
          rcases h1 with h | h
          · exact Or.inl h
          · exact Or.inr ⟨h, h2⟩
      · have hg : (getDomains (x :: rest)).2 = (getDomains rest).2 := by
          simp only [getDomains, hp]
          rw [if_neg hcond]
        rw [hg, ih]
        constructor
        · rintro ⟨h1, h2⟩
          exact ⟨List.mem_cons_of_mem _ h1, h2⟩
        · rintro ⟨h1, h2⟩
          rcases List.mem_cons.mp h1 with h | h
          · subst h
            exfalso
            have hc2 : (u.path ≠ "/" ∨ u.path ≠ "index.html") := by
              by_cases hq : u.path = "/"
              · right; rw [hq]; decide
              · left; exact hq
            have hlen : ¬ u.path.length > 0 := fun hl => hcond ⟨hl, hc2⟩
            have hpe : u.path = "" := string_eq_empty_of_length _ (by omega)
            simp [isPathSiteCode, hp, hpe] at h2
          · exact ⟨h, h2⟩

/-- C4 (corrected): a seed link is recorded as a PathSite iff it parses and its
path component is non-empty — the `/`-versus-`index.html` guard is dead, so a
path of exactly `/` also yields a PathSite. -/
theorem C4_theorem (links : List String) (l : String) :
    (getDomains links).2.contains l = (links.contains l && isPathSiteCode l) := by
  cases hc : links.contains l with
  | false =>
    have hnot : l ∉ links := by simpa using hc
    have h2 : l ∉ (getDomains links).2 :=
      fun hm => hnot ((mem_getDomains_snd links l).mp hm).1
    simpa using h2
  | true =>
    cases hs : isPathSiteCode l with
    | false =>
      have h2 : l ∉ (getDomains links).2 := by
        intro hm
        have := ((mem_getDomains_snd links l).mp hm).2
        rw [hs] at this
        exact Bool.false_ne_true this
      simpa using h2
    | true =>
      have hm : l ∈ (getDomains links).2 :=
        (mem_getDomains_snd links l).mpr ⟨by simpa using hc, hs⟩
      simpa using hm

/-- C5 (confirmed): when the first pathsite covering the outgoing domain is
`s`, a link is enqueued exactly when it starts with `s`; with no covering
pathsite the link is enqueued unconditionally; the spec's `~alice`/`~bob`
example behaves as stated. -/
theorem C5_theorem (pathsites pathsites2 : List String)
    (link dom s link2 dom2 : String)
    (hfind : pathsites.find? (fun p => strContains p dom) = some s)
    (hne : s ≠ "")
    (hnone : pathsites2.find? (fun p => strContains p dom2) = none) :
    enqueues pathsites link dom = goHasPrefix link s ∧
      enqueues pathsites2 link2 dom2 = true ∧
      enqueues ["https://shared.example/~alice"]
        "https://shared.example/~bob/page" "shared.example" = false ∧
      enqueues ["https://shared.example/~alice"]
        "https://shared.example/~alice/page2" "shared.example" = true := by
  refine ⟨?_, ?_, by decide, by decide⟩
  · simp only [enqueues, selectPathsite, hfind]
    rw [if_pos hne]
  · simp only [enqueues, selectPathsite, hnone]
    simp

/-- C5, witness: the theorem applies to the spec's shared-domain example plus a
domain covered by no pathsite. -/
theorem C5_witness :
    enqueues ["https://shared.example/~alice"]
        "https://shared.example/~bob/page" "shared.example"
      = goHasPrefix "https://shared.example/~bob/page" "https://shared.example/~alice" ∧
      enqueues [] "https://other.example/x" "other.example" = true ∧
      enqueues ["https://shared.example/~alice"]
        "https://shared.example/~bob/page" "shared.example" = false ∧
      enqueues ["https://shared.example/~alice"]
        "https://shared.example/~alice/page2" "shared.example" = true :=
  C5_theorem ["https://shared.example/~alice"] []
    "https://shared.example/~bob/page" "shared.example"
    "https://shared.example/~alice" "https://other.example/x" "other.example"
    (by decide) (by decide) (by decide)

/-- C9 (confirmed): only the first pathsite whose URL contains the outgoing
domain is consulted, so a link that is a descendant of a later matching
pathsite but not of the first one is not enqueued. -/
theorem C9_theorem (pathsites : List String) (link dom p1 p2 : String)
    (hfind : pathsites.find? (fun p => strContains p dom) = some p1)
    (hne : p1 ≠ "")
    (hp2 : p2 ∈ pathsites)
    (hc2 : strContains p2 dom = true)
    (hsw2 : goHasPrefix link p2 = true)
    (hnsw : goHasPrefix link p1 = false) :
    enqueues pathsites link dom = false := by
  simp only [enqueues, selectPathsite, hfind]
  rw [if_pos hne]
  exact hnsw

/-- C9, witness: two pathsites on one shared domain; the link descends from the
second but the first match wins and blocks it. -/
theorem C9_witness :
    enqueues ["https://shared.example/~alice", "https://shared.example/~bob"]
      "https://shared.example/~bob/page" "shared.example" = false :=
  C9_theorem ["https://shared.example/~alice", "https://shared.example/~bob"]
    "https://shared.example/~bob/page" "shared.example"
    "https://shared.example/~alice" "https://shared.example/~bob"
    (by decide) (by decide) (by decide) (by decide) (by decide) (by decide)

/-- C6 (confirmed): for a non-boring link whose outgoing domain is a ring
domain, a `webring-link` record is emitted iff the outgoing domain differs
from both the current domain and the initial domain and the current domain
differs from the initial domain. -/
theorem C6_theorem (boringWords boringDomains domains : List String)
    (link out cur init pageURL : String) (depth : Int)
    (hw : goContains boringWords link = false)
    (hd : goContains boringDomains link = false)
    (hr : find domains out = true) :
    ((logClassification boringWords boringDomains domains
        link out cur init pageURL depth).any
          (fun r => r.kind == "webring-link") = true)
      ↔ (out ≠ cur ∧ out ≠ init ∧ cur ≠ init) := by
  unfold logClassification
  rw [if_pos (by simp [hw, hd])]
  rw [if_neg (by simp [hr])]
  by_cases hcond : (out ≠ cur ∧ out ≠ init ∧ cur ≠ init)
  · rw [if_pos hcond]
    simpa using hcond
  · rw [if_neg hcond]
    simpa using hcond

/-- C6, witness: concrete ring-domain link between two distinct member sites,
neither equal to the root. -/
theorem C6_witness :
    ((logClassification [] [] ["d.com"] "https://d.com/p" "d.com" "c.com"
        "https://root.example" "https://c.com/page" 0).any
          (fun r => r.kind == "webring-link") = true)
      ↔ ("d.com" ≠ "c.com" ∧ "d.com" ≠ "https://root.example" ∧
          "c.com" ≠ "https://root.example") :=
  C6_theorem [] [] ["d.com"] "https://d.com/p" "d.com" "c.com"
    "https://root.example" "https://c.com/page" 0 (by decide) (by decide)
    (by decide)

/-- C10 (confirmed): the `a[href]` handler emits and enqueues nothing when the
status is `>= 400` or `<= 100`, while the extraction handlers never consult
the status (their output is invariant under changing it), and they do emit on
an error page — `pg404` (status 404) still yields its title record. -/
theorem C10_theorem (SUFFIXES bw bd doms ps : List String) (init : String)
    (m : List (String × Int)) (abs : String → String) (ctx : LinkCtx)
    (pq heur : List String) (p : Page) (s : Int)
    (hs : ctx.status ≥ 400 ∨ ctx.status ≤ 100) :
    linkHandler SUFFIXES bw bd doms ps init m abs ctx = ([], []) ∧
      handleIndexing pq heur m { p with statusCode := s }
        = handleIndexing pq heur m p ∧
      handleIndexing [] [] [] pg404
        = [⟨"title", "T", "https://m.example/t", 0⟩] := by
  refine ⟨?_, rfl, by decide⟩
  unfold linkHandler
  rw [if_pos hs]

/-- C10, witness: the theorem applied to the concrete 404 page and context. -/
theorem C10_witness :
    linkHandler [] [] [] [] [] "" [] (fun s => s) ctx404 = ([], []) ∧
      handleIndexing [] [] [] { pg404 with statusCode := 200 }
        = handleIndexing [] [] [] pg404 ∧
      handleIndexing [] [] [] pg404
        = [⟨"title", "T", "https://m.example/t", 0⟩] :=
  C10_theorem [] [] [] [] [] "" [] (fun s => s) ctx404 [] [] pg404 200
    (Or.inl (by decide))

theorem mapInsert_keys (m : List (String × Int)) (k : String) (v : Int)
    (url : String) (hm : ∀ q ∈ m, q.1 ≠ url) (hk : k ≠ url) :
    ∀ q ∈ mapInsert m k v, q.1 ≠ url := by
  intro q hq
  unfold mapInsert at hq
  split at hq
  · rcases List.mem_map.mp hq with ⟨a, ha, rfl⟩
    split
    · exact hk
    · exact hm a ha
  · rcases List.mem_append.mp hq with h | h
    · exact hm q h
    · rcases List.mem_singleton.mp h with rfl
      exact hk

theorem lookupDepth_foldl (l : List (String × Int)) (m : List (String × Int))
    (url : String) (hm : ∀ q ∈ m, q.1 ≠ url) (hl : ∀ q ∈ l, q.1 ≠ url) :
    lookupDepth (l.foldl (fun acc p => mapInsert acc p.1 p.2) m) url = 0 := by
  induction l generalizing m with
  | nil =>
    unfold lookupDepth
    rw [List.find?_eq_none.mpr]
    intro q hq
    simpa using hm q hq
  | cons p rest ih =>
    simp only [List.foldl_cons]
    exact ih (mapInsert m p.1 p.2)
      (mapInsert_keys m p.1 p.2 url hm (hl p (List.mem_cons_self p rest)))
      (fun q hq => hl q (List.mem_cons_of_mem p hq))

/-- A URL that is not a seed reads depth 0 from the startup-built side map. -/
theorem lookupDepth_not_seed (links : List String) (depths : List Int)
    (url : String) (h : url ∉ links) :
    lookupDepth (buildLinkDepths links depths) url = 0 := by
  unfold buildLinkDepths
  apply lookupDepth_foldl
  · intro q hq
    simp at hq
  · intro q hq
    intro hurl
    exact h (hurl ▸ (List.of_mem_zip hq).1)

theorem logClassification_depth (bw bd doms : List String)
    (link out cur init pageURL : String) (d : Int) (r : EmitRecord)
    (hr : r ∈ logClassification bw bd doms link out cur init pageURL d) :
    r.depth = d := by
  unfold logClassification at hr
  split at hr
  · split at hr
    · rcases List.mem_singleton.mp hr with rfl
      rfl
    · split at hr
      · rcases List.mem_singleton.mp hr with rfl
        rfl
      · simp at hr
  · simp at hr

theorem collectHeadingText_depth (heading : String) (m : List (String × Int))
    (p : Page) (r : EmitRecord) (hr : r ∈ collectHeadingText heading m p) :
    r.depth = lookupDepth m p.url := by
  unfold collectHeadingText at hr
  rcases List.mem_filterMap.mp hr with ⟨a, -, hf⟩
  split at hf
  · have h2 := Option.some.inj hf
    subst h2
    rfl
  · cases hf

theorem handleIndexing_depth (pq heur : List String)
    (m : List (String × Int)) (p : Page) (r : EmitRecord)
    (hr : r ∈ handleIndexing pq heur m p) :
    r.depth = lookupDepth m p.url := by
  unfold handleIndexing at hr
  simp only [List.mem_append, or_assoc] at hr
  rcases hr with h | h | h | h | h | h
  · rcases List.mem_map.mp h with ⟨a, -, rfl⟩
    rfl
  · unfold descHandler at h
    rcases List.mem_filterMap.mp h with ⟨a, -, hf⟩
    simp only at hf
    split at hf
    · have h2 := Option.some.inj hf
      subst h2
      rfl
    · cases hf
  · unfold ogDescHandler at h
    rcases List.mem_filterMap.mp h with ⟨a, -, hf⟩
    simp only at hf
    split at hf
    · have h2 := Option.some.inj hf
      subst h2
      rfl
    · cases hf
  · unfold langHandler at h
    rcases List.mem_filterMap.mp h with ⟨a, -, hf⟩
    simp only at hf
    split at hf
    · have h2 := Option.some.inj hf
      subst h2
      rfl
    · cases hf
  · rcases List.mem_map.mp h with ⟨a, -, rfl⟩
    rfl
  · simp only [bodyHandler, List.mem_append, or_assoc] at h
    rcases h with h | h | h | h | h
    · split at h
      · rcases List.mem_singleton.mp h with rfl
        rfl
      · cases h
    · split at h
      · rcases List.mem_singleton.mp h with rfl
        rfl
      · cases h
    · exact collectHeadingText_depth "h1" m p r h
    · exact collectHeadingText_depth "h2" m p r h
    · exact collectHeadingText_depth "h3" m p r h

theorem linkHandler_depth (SUFFIXES bw bd doms ps : List String)
    (init : String) (m : List (String × Int)) (abs : String → String)
    (ctx : LinkCtx) (r : EmitRecord)
    (hr : r ∈ (linkHandler SUFFIXES bw bd doms ps init m abs ctx).1) :
    r.depth = lookupDepth m ctx.pageURL := by
  simp only [linkHandler] at hr
  split at hr
  · simp at hr
  · split at hr
    · simp at hr
    · split at hr
      · simp at hr
      · exact logClassification_depth _ _ _ _ _ _ _ _ _ _ hr

/-- C8 (confirmed): the side map holds exactly the seeds, so a page whose URL
is not a seed reads depth 0 and every record emitted for it — by the
extraction handlers or the `a[href]` handler — carries depth 0. -/
theorem C8_theorem (links : List String) (depths : List Int)
    (pq heur SUFFIXES bw bd doms ps : List String) (init : String)
    (abs : String → String) (p : Page) (ctx : LinkCtx)
    (h1 : p.url ∉ links) (h2 : ctx.pageURL ∉ links) :
    lookupDepth (buildLinkDepths links depths) p.url = 0 ∧
      (handleIndexing pq heur (buildLinkDepths links depths) p).all
        (fun r => r.depth == 0) = true ∧
      ((linkHandler SUFFIXES bw bd doms ps init (buildLinkDepths links depths)
          abs ctx).1.all (fun r => r.depth == 0)) = true := by
  refine ⟨lookupDepth_not_seed links depths p.url h1, ?_, ?_⟩
  · rw [List.all_eq_true]
    intro r hr
    have := handleIndexing_depth pq heur _ p r hr
    rw [this, lookupDepth_not_seed links depths p.url h1]
    rfl
  · rw [List.all_eq_true]
    intro r hr
    have := linkHandler_depth SUFFIXES bw bd doms ps init _ abs ctx r hr
    rw [this, lookupDepth_not_seed links depths ctx.pageURL h2]
    rfl

/-- C8, witness: concrete seeds and a non-seed page URL. -/
theorem C8_witness :
    lookupDepth (buildLinkDepths ["https://a.example"] [2]) pg404.url = 0 ∧
      (handleIndexing [] [] (buildLinkDepths ["https://a.example"] [2])
          pg404).all (fun r => r.depth == 0) = true ∧
      ((linkHandler [] [] [] [] [] ""
          (buildLinkDepths ["https://a.example"] [2]) (fun s => s)
          ctx404).1.all (fun r => r.depth == 0)) = true :=
  C8_theorem ["https://a.example"] [2] [] [] [] [] [] [] [] ""
    (fun s => s) pg404 ctx404 (by decide) (by decide)

theorem setAdd_of_not_mem {α : Type} [DecidableEq α] (l : List α) (x : α)
    (h : x ∉ l) : setAdd l x = l ++ [x] := by
  unfold setAdd
  rw [if_neg h]

theorem emitSites_eq (banned : List String) (sites : List Site) :
    emitSites banned sites = (sites.filter (emitKeep banned)).map siteLine := by
  induction sites with
  | nil => rfl
  | cons s rest ih =>
    simp only [emitSites]
    cases hp : parseURL (getLink s.url) with
    | none =>
      have hk : emitKeep banned s = false := by
        simp [emitKeep, hp]
      simp [hp, hk, ih, List.filter_cons]
    | some u =>
      cases hb : find banned u.hostname with
      | true =>
        have hk : emitKeep banned s = false := by
          simp [emitKeep, hp, hb]
        simp [hp, hb, hk, ih, List.filter_cons]
      | false =>
        have hk : emitKeep banned s = true := by
          simp [emitKeep, hp, hb]
        simp [hp, hb, hk, ih, List.filter_cons, siteLine]

/-- C1 (corrected): under cycle tolerance, each iteration that still has an
unchecked Hypha `d` grows `checked` by exactly `d`, and emission maps each
discovered Site to exactly one output line when it is kept (parseable and not
banned); unconditional termination, which the claim also asserts, is false —
see the counterexample. -/
theorem C1_theorem (graph : String → FetchResult) (st : PState) (d : Hypha)
    (s : Int) (b : Option Cluster) (banned : List String) (sites : List Site)
    (hcyc : cycleTolerant graph)
    (hd : d ∈ diffU (processCluster st))
    (hg : graph d.url = FetchResult.response s b) :
    (processCluster { processCluster st with
        depthCounter := d.depth, resStatus := s, resBody := b }).checked
      = (processCluster st).checked ++ [d] ∧
    emitSites banned sites = (sites.filter (emitKeep banned)).map siteLine := by
  refine ⟨?_, emitSites_eq banned sites⟩
  obtain ⟨s2, cl, hresp, hloc⟩ := hcyc d.url
  rw [hg] at hresp
  injection hresp with hs hb
  subst hb
  have hL : (processCluster { processCluster st with
      depthCounter := d.depth, resStatus := s, resBody := some cl }).checked
      = setAdd (processCluster st).checked ⟨cl.location, d.depth⟩ := rfl
  rw [hL, hloc]
  have hde : (⟨d.url, d.depth⟩ : Hypha) = d := by
    cases d
    rfl
  rw [hde]
  apply setAdd_of_not_mem
  exact of_decide_eq_true (List.mem_filter.mp hd).2

/-- C1, witness: the growth equation and the emission equation at a concrete
cycle-tolerant graph and state. -/
theorem C1_witness :
    (processCluster { processCluster cStA with
        depthCounter := ((⟨"https://a/2", 1⟩ : Hypha)).depth, resStatus := 200,
        resBody := some ⟨"https://a/2", [], []⟩ }).checked
      = (processCluster cStA).checked ++ [⟨"https://a/2", 1⟩] ∧
    emitSites [] [⟨"https://b", 0⟩]
      = (([⟨"https://b", 0⟩] : List Site).filter (emitKeep [])).map siteLine :=
  C1_theorem echoGraph cStA ⟨"https://a/2", 1⟩ 200
    (some ⟨"https://a/2", [], []⟩) [] [⟨"https://b", 0⟩]
    (fun u => ⟨200, ⟨u, [], []⟩, rfl, rfl⟩) (by decide) rfl

theorem hyA_inj (i j : Nat) (h : hyA i = hyA j) : i = j := by
  simpa [hyA] using congrArg Hypha.depth h

theorem range_map_succ {α : Type} (g : Nat → α) (n : Nat) :
    (List.range n).map g ++ [g n] = (List.range (n + 1)).map g := by
  rw [List.range_succ, List.map_append]
  rfl

theorem hyA_not_mem_map (n : Nat) : hyA n ∉ (List.range n).map hyA := by
  intro h
  rcases List.mem_map.mp h with ⟨i, hi, hEq⟩
  have h2 := hyA_inj i n hEq
  subst h2
  exact absurd (List.mem_range.mp hi) (lt_irrefl i)

theorem hyA_succ_not_mem_map (n : Nat) :
    hyA (n + 1) ∉ (List.range n).map (fun i => hyA (i + 1)) := by
  intro h
  rcases List.mem_map.mp h with ⟨i, hi, hEq⟩
  have h2 : i = n := by
    have := hyA_inj (i + 1) (n + 1) hEq
    omega
  subst h2
  exact absurd (List.mem_range.mp hi) (lt_irrefl i)

theorem processCluster_stN (n : Nat) :
    processCluster (stN n)
      = ⟨(n : Int), (List.range (n + 1)).map hyA,
          (List.range (n + 1)).map (fun i => hyA (i + 1)), [], 200,
          some ⟨"a", ["a"], []⟩⟩ := by
  unfold processCluster stN
  simp only [Option.getD, List.foldl]
  congr 1
  · rw [show (⟨"a", (n : Int)⟩ : Hypha) = hyA n from rfl,
      setAdd_of_not_mem _ _ (hyA_not_mem_map n), range_map_succ]
  · rw [show (⟨"a", (n : Int) + 1⟩ : Hypha) = hyA (n + 1) from rfl,
      setAdd_of_not_mem _ _ (hyA_succ_not_mem_map n), range_map_succ]

theorem hyA_succ_not_mem_checked (n : Nat) :
    hyA (n + 1) ∉ (List.range (n + 1)).map hyA := by
  intro h
  rcases List.mem_map.mp h with ⟨i, hi, hEq⟩
  have h2 := hyA_inj i (n + 1) hEq
  have h3 := List.mem_range.mp hi
  omega

theorem diffU_processCluster_stN (n : Nat) :
    diffU (processCluster (stN n)) = [hyA (n + 1)] := by
  rw [processCluster_stN]
  unfold diffU
  simp only
  rw [List.filter_map]
  set q : Nat → Bool :=
    (fun h => decide (h ∉ (List.range (n + 1)).map hyA)) ∘
      (fun i => hyA (i + 1)) with hq
  have hqi : ∀ i : Nat, q i = decide (hyA (i + 1) ∉ (List.range (n + 1)).map hyA) :=
    fun i => rfl
  have hfil : (List.range (n + 1)).filter q = [n] := by
    rw [List.range_succ, List.filter_append]
    have h1 : (List.range n).filter q = [] := by
      rw [List.filter_eq_nil_iff]
      intro i hi
      rw [hqi]
      simp only [decide_eq_true_eq, not_not]
      exact List.mem_map.mpr ⟨i + 1,
        List.mem_range.mpr (by
          have := List.mem_range.mp hi
          omega), rfl⟩
    have h2 : ([n] : List Nat).filter q = [n] := by
      have hqn : q n = true := by
        rw [hqi]
        exact decide_eq_true (hyA_succ_not_mem_checked n)
      simp [List.filter_singleton, hqn]
    rw [h1, h2, List.nil_append]
  rw [hfil]
  rfl

theorem precrawlLoop_stN_step (banned : List String) (fuel n : Nat) :
    precrawlLoop selfGraph banned (fuel + 1) (stN n)
      = precrawlLoop selfGraph banned fuel (stN (n + 1)) := by
  simp only [precrawlLoop, diffU_processCluster_stN]
  congr 1
  rw [processCluster_stN]
  unfold stN hyA selfGraph
  rfl

theorem precrawlLoop_selfGraph_none (banned : List String) (fuel n : Nat) :
    precrawlLoop selfGraph banned fuel (stN n) = none := by
  induction fuel generalizing n with
  | zero => rfl
  | succ fuel ih =>
    rw [precrawlLoop_stN_step]
    exact ih (n + 1)

/-- C1, counterexample: on the finite, cycle-tolerant self-loop graph the
precrawl loop never terminates — Hypha identity includes the depth, so the
one self-referencing page is re-added as unchecked at ever larger depths. -/
theorem C1_counterexample : selfLoopRunsForever := by
  intro fuel
  show precrawlLoop selfGraph [] fuel ⟨0, [], [], [], 200, some ⟨"a", ["a"], []⟩⟩
    = none
  have h0 : (⟨0, [], [], [], 200, some ⟨"a", ["a"], []⟩⟩ : PState) = stN 0 := rfl
  rw [h0]
  exact precrawlLoop_selfGraph_none [] fuel 0

/-- C2, counterexample: a JSON decode failure is NOT fatal — on a seed
response whose body fails to decode (status 200) the run completes normally
and emits a site list instead of aborting, because `json.Unmarshal`'s error is
ignored (crawler.go 253). -/
theorem C2_counterexample :
    precrawl garbageGraph [] "https://seed.example" 1
      = some (PrecrawlResult.emitted []) := rfl

/-- C2 (corrected): transport errors — at the seed fetch or at any in-loop
fetch — and a non-200 final status are fatal; JSON decode errors are not (see
the counterexample): the undecoded body is processed as the zero Cluster and
the run continues. -/
theorem C2_theorem (graph : String → FetchResult) (banned : List String)
    (seed : String) (fuel : Nat) (st st2 : PState) (d : Hypha)
    (rest : List Hypha)
    (h1 : graph seed = FetchResult.transportError)
    (h2 : diffU (processCluster st) = d :: rest)
    (h3 : graph d.url = FetchResult.transportError)
    (h4 : diffU (processCluster st2) = [])
    (h5 : st2.resStatus ≠ 200) :
    precrawl graph banned seed fuel = some PrecrawlResult.fatal ∧
      precrawlLoop graph banned (fuel + 1) st = some PrecrawlResult.fatal ∧
      precrawlLoop graph banned (fuel + 1) st2 = some PrecrawlResult.fatal := by
  refine ⟨?_, ?_, ?_⟩
  · unfold precrawl
    rw [h1]
  · simp only [precrawlLoop, h2, h3]
  · simp only [precrawlLoop, h4]
    have h5' : (processCluster st2).resStatus ≠ 200 := h5
    rw [if_pos h5']

/-- C2, witness: the fatal cases of the amended theorem at concrete inputs —
a transport-failing graph, a state with one unchecked Hypha, and a finished
state whose last status is 500. -/
theorem C2_witness :
    precrawl fatalGraph [] "https://seed.example" 0 = some PrecrawlResult.fatal ∧
      precrawlLoop fatalGraph [] 1 cStOpen = some PrecrawlResult.fatal ∧
      precrawlLoop fatalGraph [] 1 cStDone = some PrecrawlResult.fatal :=
  C2_theorem fatalGraph [] "https://seed.example" 0 cStOpen cStDone
    ⟨"h", 1⟩ [] rfl (by decide) rfl (by decide) (by decide)

/-- C3 (confirmed): on the spec's two-document graph, discovery emits exactly
`(https://b, 0)` and `(https://c, 1)` — hyphae are explored at `depth+1`,
spores are recorded at the current depth — provided the domains `b` and `c`
are not banned. -/
theorem C3_theorem (banned : List String)
    (hb : find banned "b" = false) (hc : find banned "c" = false) :
    precrawl c3graph banned "https://a" 2
      = some (PrecrawlResult.emitted [("https://b", 0), ("https://c", 1)]) := by
  have hrun : precrawl c3graph banned "https://a" 2
      = some (PrecrawlResult.emitted
          (emitSites banned [⟨"https://b", 0⟩, ⟨"https://c", 1⟩])) := rfl
  rw [hrun, emitSites_eq]
  have k1 : emitKeep banned ⟨"https://b", 0⟩ = !(find banned "b") := rfl
  have k2 : emitKeep banned ⟨"https://c", 1⟩ = !(find banned "c") := rfl
  simp [List.filter_cons, k1, k2, hb, hc, siteLine]
  exact ⟨rfl, rfl⟩

/-- C3, witness: the two-document run with an empty banned list. -/
theorem C3_witness :
    precrawl c3graph [] "https://a" 2
      = some (PrecrawlResult.emitted [("https://b", 0), ("https://c", 1)]) :=
  C3_theorem [] rfl rfl

end MoldNet
